import Mathlib

/-!
Shallow embedding of the `ai-agent` evaluation pipeline core (Go).

Sources embedded here:
* `internal/api` handlers (`getAnnotatorAgreement`, `getRoutingDecision`,
  `createConversation`, `triggerEvaluation`),
* `internal/queue/redis.go` (`Enqueue`, `Dequeue`, `Get` and the `Task`
  wire format),
* `internal/models/models.go` (the record types the handlers read),
* `internal/config` (the `AnnotatorAgreementThreshold` constant).

Modelling conventions, used throughout:
* Go `float64` is modelled as `ℚ`; every float operation the embedded code
  performs is a division of small integers or an order comparison, both of
  which are monotone-compatible between the two carriers at the values the
  claims mention.
* Go `time.Time` is modelled as a natural number of nanoseconds since the
  epoch; its RFC3339Nano JSON serialization is modelled as the decimal
  digit string of that number (both are injective encodings of the wall
  clock instant, and only injectivity/parseability matters to the queue).
* `sql.NullFloat64` / `sql.NullString` / `sql.NullInt32` are `Option ℚ`,
  `Option String`, `Option Int`.
* Go `nil` slices and maps are distinguished from empty ones: a slice-typed
  field is `Option (List α)` with `none` for `nil`.
* Iteration over a Go `map` visits keys in an unspecified order.  Every
  computation of the source that ranges over a map is therefore
  parameterised here by an `order : List String` together with the
  hypothesis `IterOrder` saying that `order` enumerates exactly the keys of
  the map, each once; the Go runtime picks one such order per run.
-/

namespace AgentEval

/-- Human annotation record (`internal/models/models.go`, struct
`Annotation`).  Fields are carried verbatim; only `annotatorID` and
`label` are read by the agreement computation. -/
structure Annotation where
  id : Int
  conversationID : String
  annotatorID : String
  annotationType : String
  label : String
  score : Option ℚ
  confidence : Option ℚ
  notes : Option String
  timeSpentSeconds : Option Int
  createdAt : Nat
  deriving Repr, DecidableEq

/-- Agreement analysis result (`internal/models/models.go`, struct
`AnnotatorAgreement`). -/
structure AnnotatorAgreement where
  conversationID : String
  annotationType : String
  annotators : List String
  agreementScore : ℚ
  majorityLabel : String
  needsTiebreaker : Bool
  individualAnnotations : List Annotation
  deriving Repr, DecidableEq

/-- The labels of the supplied annotations, in input order (with
repetitions). -/
def labelsOf (anns : List Annotation ) : List String :=
  anns.map (fun a => a.label)

/-- Content of the `labelCounts` Go map after the tally loop of
`getAnnotatorAgreement`: how many supplied annotations carry label `l`. -/
def labelCount (anns : List Annotation ) (l : String) : Nat :=
  anns.countP (fun a => a.label == l)

/-- `order` is a possible iteration order of the `labelCounts` Go map:
it enumerates each distinct label of the input exactly once.  Go's
`for ... range` over a map guarantees nothing beyond this. -/
def IterOrder (anns : List Annotation ) (order : List String) : Prop :=
  order.Nodup ∧ (∀ l ∈ order, l ∈ labelsOf anns) ∧ (∀ l ∈ labelsOf anns, l ∈ order)

instance instDecIterOrder (anns : List Annotation ) (order : List String) :
    Decidable (IterOrder anns order) :=
  inferInstanceAs (Decidable (order.Nodup ∧ (∀ l ∈ order, l ∈ labelsOf anns) ∧
    (∀ l ∈ labelsOf anns, l ∈ order)))

/-- One step of the majority-selection loop of `getAnnotatorAgreement`:
`if count > maxCount { maxCount = count; majorityLabel = label }`. -/
def majorityStep (counts : String → Nat) (acc : String × Nat) (l : String) : String × Nat :=
  if counts l > acc.2 then (l, counts l) else acc

/-- The majority-selection loop of `getAnnotatorAgreement`, ranging over
the map keys in iteration order `order`, starting from the zero values
`majorityLabel = ""`, `maxCount = 0`. -/
def majorityFold (counts : String → Nat) (order : List String) : String × Nat :=
  order.foldl (majorityStep counts) ("", 0)

/-- The agreement computation of handler `getAnnotatorAgreement`
(`internal/api`, lines 390–423), for one `(conversationID,
annotationType)` pair, over the supplied annotations.  `threshold` is
`cfg.AnnotatorAgreementThreshold`; `order` is the iteration order the Go
runtime picked for the `labelCounts` map. -/
def getAnnotatorAgreement (threshold : ℚ) (conversationID annotationType : String)
    (anns : List Annotation ) (order : List String) : AnnotatorAgreement :=
  let annotators := anns.map (fun a => a.annotatorID)
  let m := majorityFold (labelCount anns) order
  let agreementScore : ℚ := if anns.length > 1 then (m.2 : ℚ) / (anns.length : ℚ) else 1
  ⟨conversationID, annotationType, annotators, agreementScore, m.1,
    decide (agreementScore < threshold), anns⟩

/-- The default `ANNOTATOR_AGREEMENT_THRESHOLD` of `internal/config`
(`getEnvFloat("ANNOTATOR_AGREEMENT_THRESHOLD", 0.8)`). -/
def defaultAgreementThreshold : ℚ := 0.8

/-- Modelled from the spec (§4.3, step 2): "Majority label = label with the
highest count; ties broken by first-encountered label in the input
ordering".  Used only to compare the spec's tie-break rule against the
code's behaviour. -/
def specMajorityLabel (anns : List Annotation ) : String :=
  let maxCount := ((labelsOf anns).map (labelCount anns)).foldl Nat.max 0
  ((labelsOf anns).find? (fun l => labelCount anns l == maxCount)).getD ""

/-- Detected issue (`internal/models/models.go`, struct `IssueDetected`),
as the handler obtains it from `json.Unmarshal(eval.IssuesDetected, &issues)`. -/
structure IssueDetected where
  type : String
  severity : String
  description : String
  turnID : Int
  deriving Repr, DecidableEq

/-- Evaluation record (`internal/models/models.go`, struct `Evaluation`),
restricted to the fields `getRoutingDecision` reads.  The raw
`IssuesDetected` JSON column is modelled as the issue list the handler
unmarshals from it. -/
structure Evaluation where
  overallScore : ℚ
  issuesDetected : List IssueDetected
  deriving Repr, DecidableEq

/-- Routing decision (`internal/models/models.go`, struct `RoutingDecision`). -/
structure RoutingDecision where
  conversationID : String
  needsHumanReview : Bool
  priority : String
  routingReason : List String
  autoLabel : Bool
  suggestedAnnotationTypes : List String
  deriving Repr, DecidableEq

/-- `issue.Type == "tool" || issue.Type == "tool_execution_failure"`
(first suggested-types test of `getRoutingDecision`). -/
def isToolIssue (i : IssueDetected) : Bool :=
  i.type == "tool" || i.type == "tool_execution_failure"

/-- `issue.Type == "context_loss" || issue.Type == "coherence"`
(second suggested-types test of `getRoutingDecision`). -/
def isCoherenceIssue (i : IssueDetected) : Bool :=
  i.type == "context_loss" || i.type == "coherence"

/-- Body of the suggested-types loop of `getRoutingDecision`: per issue,
append `"tool_accuracy"` and/or `"coherence"` to the accumulated slice. -/
def suggestedStep (acc : List String) (i : IssueDetected) : List String :=
  (acc ++ (if isToolIssue i then ["tool_accuracy"] else [])) ++
    (if isCoherenceIssue i then ["coherence"] else [])

/-- The routing computation of handler `getRoutingDecision`
(`internal/api`, lines 450–491), over the latest evaluation `e` for
`conversationID`, after the handler has unmarshalled the issues. -/
def getRoutingDecision (conversationID : String) (e : Evaluation) : RoutingDecision :=
  let lowScore := decide (e.overallScore < 0.4)
  let needsReview₁ := lowScore
  let routingReason₁ := if lowScore then ["Low quality score"] else []
  let priority₁ := if lowScore then "high" else "low"
  let criticalCount := e.issuesDetected.countP (fun i => i.severity == "critical")
  let needsReview := if criticalCount > 0 then true else needsReview₁
  let routingReason :=
    if criticalCount > 0 then routingReason₁ ++ ["Critical issues detected"] else routingReason₁
  let priority := if criticalCount > 0 then "high" else priority₁
  let suggestedTypes := e.issuesDetected.foldl suggestedStep ["general_quality"]
  ⟨conversationID, needsReview, priority, routingReason, !needsReview, suggestedTypes⟩

/-!
JSON values and the `Task` wire format (`internal/queue/redis.go`).

`JVal` is the JSON value tree; serialization is modelled at this level
(Go's byte-level encoder and decoder compose to the identity on value
trees, except that decoding into `interface{}` / `map[string]interface{}`
canonicalises objects into maps, which `canonV` captures).  `JVal.num`
models the `float64` numbers Go's decoder produces.  A Go
`map[string]interface{}` is represented canonically: key-sorted entry
list with pairwise-distinct keys (`json.Marshal` emits map keys in sorted
order). -/

/-- JSON value tree. -/
inductive JVal where
  | null : JVal
  | bool : Bool → JVal
  | num : ℚ → JVal
  | str : String → JVal
  | arr : List JVal → JVal
  | obj : List (String × JVal) → JVal
  deriving Repr

/-- Queue task (`internal/queue/redis.go`, struct `Task`).
`EvaluatorTypes []string` and `Payload map[string]interface{}` both carry
`omitempty`; `none` models the Go `nil` slice/map, `some []` the empty
non-nil one. -/
structure Task where
  id : String
  type : String
  conversationID : String
  evaluatorTypes : Option (List String)
  payload : Option (List (String × JVal))
  createdAt : Nat
  deriving Repr

/-- Decimal digits of `n`, most significant first. -/
def natDigits (n : Nat) : List Nat :=
  if _h : n < 10 then [n]
  else natDigits (n / 10) ++ [n % 10]
  decreasing_by omega

/-- Read a digit list back, most significant first. -/
def ofDigits (ds : List Nat) : Nat :=
  ds.foldl (fun a d => a * 10 + d) 0

/-- The character for decimal digit `d`. -/
def digitChar (d : Nat) : Char :=
  Char.ofNat (48 + d)

/-- The digit value of character `c`. -/
def charDigit (c : Char) : Nat :=
  c.toNat - 48

/-- Is `c` a decimal digit character? -/
def isDigitCh (c : Char) : Bool :=
  48 ≤ c.toNat && c.toNat ≤ 57

/-- The timestamp serialization of `time.Time` (RFC3339Nano, modelled as
the decimal nanosecond string — an injective encoding of the instant). -/
def fmtNanos (n : Nat) : String :=
  String.mk ((natDigits n).map digitChar)

/-- Parse a serialized timestamp back; `none` models a
`time.Time` unmarshal error. -/
def parseNanos (s : String) : Option Nat :=
  if s.data ≠ [] ∧ s.data.all isDigitCh then some (ofDigits (s.data.map charDigit))
  else none

/-- Insert `(k, v)` into a key-sorted entry list, replacing an existing
binding of `k` (Go map assignment `m[k] = v`, canonical listing). -/
def insertKV (k : String) (v : JVal) : List (String × JVal) → List (String × JVal)
  | [] => [(k, v)]
  | (k', v') :: rest =>
    if k < k' then (k, v) :: (k', v') :: rest
    else if k = k' then (k, v) :: rest
    else (k', v') :: insertKV k v rest

/-- Build the canonical listing of the Go map obtained by assigning the
entries left to right (later entries overwrite earlier ones). -/
def canonFields (entries : List (String × JVal)) : List (String × JVal) :=
  entries.foldl (fun m kv => insertKV kv.1 kv.2 m) []

mutual

/-- Decoding a JSON value into Go `interface{}` canonicalises every
object into a `map[string]interface{}`; re-listing that map canonically
sorts its keys and keeps the last value of a duplicated key. -/
def canonV : JVal → JVal
  | .null => .null
  | .bool b => .bool b
  | .num q => .num q
  | .str s => .str s
  | .arr xs => .arr (canonVList xs)
  | .obj fs => .obj (canonFields (canonVFields fs))

/-- `canonV` mapped over an array's elements. -/
def canonVList : List JVal → List JVal
  | [] => []
  | x :: xs => canonV x :: canonVList xs

/-- `canonV` mapped over an object's field values. -/
def canonVFields : List (String × JVal) → List (String × JVal)
  | [] => []
  | (k, v) :: fs => (k, canonV v) :: canonVFields fs

end

/-- Are the keys of an entry list strictly sorted (hence distinct)? -/
def strictSortedKeys : List (String × JVal) → Bool
  | [] => true
  | [_] => true
  | (k₁, _) :: (k₂, v₂) :: rest =>
    decide (k₁ < k₂) && strictSortedKeys ((k₂, v₂) :: rest)

mutual

/-- Is a JSON value the faithful image of a Go `interface{}` value as
produced by Go's decoder: every object key-sorted and duplicate-free,
recursively? -/
def isCanon : JVal → Bool
  | .null => true
  | .bool _ => true
  | .num _ => true
  | .str _ => true
  | .arr xs => isCanonList xs
  | .obj fs => strictSortedKeys fs && isCanonFields fs

/-- `isCanon` over an array's elements. -/
def isCanonList : List JVal → Bool
  | [] => true
  | x :: xs => isCanon x && isCanonList xs

/-- `isCanon` over an object's field values. -/
def isCanonFields : List (String × JVal) → Bool
  | [] => true
  | (_, v) :: fs => isCanon v && isCanonFields fs

end

/-- `json.Marshal` of a `Task` (struct tags `id`, `type`,
`conversation_id`, `evaluator_types,omitempty`, `payload,omitempty`,
`created_at`; `omitempty` drops a `nil` or empty slice/map). -/
def marshalTask (t : Task ) : JVal :=
  JVal.obj
    ([("id", JVal.str t.id), ("type", JVal.str t.type),
      ("conversation_id", JVal.str t.conversationID)] ++
      (match t.evaluatorTypes with
        | none => []
        | some ts => if ts.isEmpty then [] else [("evaluator_types", JVal.arr (ts.map JVal.str))]) ++
      (match t.payload with
        | none => []
        | some ps => if ps.isEmpty then [] else [("payload", JVal.obj ps)]) ++
      [("created_at", JVal.str (fmtNanos t.createdAt))])

/-- Decode a JSON value as a Go `string` (unmarshal error otherwise). -/
def asString : JVal → Option String
  | .str s => some s
  | _ => none

/-- Decode a JSON value as a Go `[]string`: `null` gives the `nil` slice,
an array of strings gives a non-nil slice, anything else is an error. -/
def asStringSlice : JVal → Option (Option (List String))
  | .null => some none
  | .arr xs => (xs.mapM asString).map some
  | _ => none

/-- Decode a JSON value as a Go `map[string]interface{}`: `null` gives
the `nil` map, an object is built up entry by entry (later duplicate
keys overwrite, values decoded as `interface{}`), anything else is an
error. -/
def asPayloadMap : JVal → Option (Option (List (String × JVal)))
  | .null => some none
  | .obj fs => some (some (canonFields (canonVFields fs)))
  | _ => none

/-- Decode a string struct field: an absent key leaves the zero value
`""`; a present key must hold a string. -/
def decodeStrField (fields : List (String × JVal)) (k : String) : Option String :=
  match fields.lookup k with
  | none => some ""
  | some v => asString v

/-- `json.Unmarshal` of a `Task` (field-by-field decoding; unknown keys
ignored; absent keys leave the zero value, i.e. `""`, `nil`, or the zero
time). -/
def unmarshalTask (j : JVal) : Option Task :=
  match j with
  | .obj fields =>
    match decodeStrField fields "id", decodeStrField fields "type",
        decodeStrField fields "conversation_id" with
    | some id, some ty, some cid =>
      match (match fields.lookup "evaluator_types" with
              | none => some none
              | some v => asStringSlice v) with
      | some evTypes =>
        match (match fields.lookup "payload" with
                | none => some none
                | some v => asPayloadMap v) with
        | some payload =>
          match (match fields.lookup "created_at" with
                  | none => some 0
                  | some (.str s) => parseNanos s
                  | some _ => none) with
          | some createdAt => some ⟨id, ty, cid, evTypes, payload, createdAt⟩
          | none => none
        | none => none
      | none => none
    | _, _, _ => none
  | _ => none

/-- `Enqueue` (`internal/queue/redis.go`): `json.Marshal` the task and
`RPush` it onto the tail of the named queue (the queue state is the list
of serialized entries, head first). -/
def enqueue (q : List JVal) (t : Task ) : List JVal :=
  q ++ [marshalTask t]

/-- `Dequeue` (`internal/queue/redis.go`): `BLPop` the head entry and
`json.Unmarshal` it.  `.ok none` models the timeout result `(nil, nil)`
on an empty queue; `.error` models an unmarshal failure. -/
def dequeue (q : List JVal) : Except String (Option Task ) × List JVal :=
  match q with
  | [] => (.ok none, [])
  | v :: rest =>
    match unmarshalTask v with
    | some t => (.ok (some t), rest)
    | none => (.error "failed to unmarshal task", rest)

/-- `Get` (`internal/queue/redis.go`, lines 101–110): read `key` from the
store and `json.Unmarshal` the bytes into `dest`.  A missing key returns
`nil` — `dest` untouched, no error.  The store maps keys to the (already
parsed) stored JSON values; decoding into `interface{}` canonicalises. -/
def redisGet (store : String → Option JVal) (key : String) (dest : JVal) :
    Except String JVal :=
  match store key with
  | none => .ok dest
  | some v => .ok (canonV v)

/-- Conversation record (`internal/models/models.go`, struct
`Conversation`); the JSON columns are modelled as value trees. -/
structure Conversation where
  id : Int
  conversationID : String
  agentVersion : String
  turns : JVal
  metadata : JVal
  createdAt : Nat
  updatedAt : Nat
  deriving Repr

/-- The default evaluator set used by the handlers:
`{"llm_judge", "tool_call", "coherence", "heuristic"}`. -/
def defaultEvaluatorTypes : List String :=
  ["llm_judge", "tool_call", "coherence", "heuristic"]

/-- Handler `createConversation` (`internal/api`, lines 39–69), from the
point the request body has been bound.  Inputs are the repository result,
the `auto_evaluate` flag, the freshly generated task identity/time, and
whether `Enqueue` succeeds; output is the HTTP status, the response body
(the created conversation when successful), and the resulting
`"evaluations"` queue.  An enqueue failure on the auto-evaluate path is
logged and dropped (`// Log but don't fail`). -/
def createConversation (createResult : Except String Conversation)
    (autoEvaluate : Bool) (conversationID taskID : String) (now : Nat)
    (enqueueOk : Bool) (q : List JVal) : Nat × Option Conversation × List JVal :=
  match createResult with
  | .error _ => (500, none, q)
  | .ok created =>
    if autoEvaluate then
      let task : Task := ⟨taskID, "evaluate", conversationID, some defaultEvaluatorTypes, none, now⟩
      if enqueueOk then (201, some created, enqueue q task)
      else (201, some created, q)
    else (201, some created, q)

/-- Handler `triggerEvaluation` (`internal/api`, lines 197–241), from the
point the request body has been bound.  Inputs are the repository lookup
result for `req.ConversationID` (`.ok none` = conversation absent), the
requested evaluator types, the fresh task identity/time, whether
`Enqueue` succeeds, and the `"evaluations"` queue; output is the HTTP
status and the resulting queue. -/
def triggerEvaluation (convResult : Except String (Option Conversation))
    (conversationID : String) (evaluatorTypes : List String) (taskID : String)
    (now : Nat) (enqueueOk : Bool) (q : List JVal) : Nat × List JVal :=
  match convResult with
  | .error _ => (500, q)
  | .ok none => (404, q)
  | .ok (some _) =>
    let evTypes := if evaluatorTypes.length == 0 then defaultEvaluatorTypes else evaluatorTypes
    let task : Task := ⟨taskID, "evaluate", conversationID, some evTypes, none, now⟩
    if enqueueOk then (200, enqueue q task)
    else (500, q)

/-- A sample annotation with the given annotator and label (all other
fields zero values). -/
def mkAnn (aid l : String) : Annotation :=
  ⟨0, "conv-1", aid, "quality", l, none, none, none, none, 0⟩

/-- Two annotations with tied labels "good" and "bad", in this input
order. -/
def annsTie : List Annotation :=
  [mkAnn "a1" "good", mkAnn "a2" "bad"]

/-- Three annotations labelled "good", "good", "bad" (the spec's worked
example). -/
def annsGGB : List Annotation :=
  [mkAnn "a1" "good", mkAnn "a2" "good", mkAnn "a3" "bad"]

/-- A concrete low-scoring evaluation with one critical tool issue. -/
def evalCrit : Evaluation :=
  ⟨0.3, [⟨"tool", "critical", "tool call failed", 1⟩]⟩

/-- A concrete clean evaluation: score 0.9, no issues. -/
def evalClean : Evaluation :=
  ⟨0.9, []⟩

/-- A concrete evaluation with one non-critical tool-execution issue. -/
def evalToolIssue : Evaluation :=
  ⟨0.9, [⟨"tool_execution_failure", "low", "wrong parameters", 2⟩]⟩

/-- A task is a faithful image of a Go `Task` value whose slice/map
fields round-trip: `EvaluatorTypes` and `Payload` are not
empty-but-non-nil (`omitempty` conflates `some []` with `none`), and the
payload entry list is the canonical listing of a Go map (key-sorted,
duplicate-free, values canonical). -/
def GoodTask (t : Task ) : Prop :=
  t.evaluatorTypes ≠ some [] ∧ t.payload ≠ some [] ∧
    ∀ ps, t.payload = some ps → strictSortedKeys ps = true ∧ isCanonFields ps = true

/-- A concrete task with an empty-but-non-nil `EvaluatorTypes` slice. -/
def taskEmptySlice : Task :=
  ⟨"task-1", "evaluate", "conv-1", some [], none, 0⟩

/-- `taskEmptySlice` after one serialize/deserialize round trip: the
empty slice has become the `nil` slice. -/
def taskEmptySliceRT : Task :=
  ⟨"task-1", "evaluate", "conv-1", none, none, 0⟩

/-- A concrete well-behaved task. -/
def taskGood : Task :=
  ⟨"task-2", "evaluate", "conv-2", some defaultEvaluatorTypes, none, 1700000000000000000⟩

/-- A concrete key-value store holding the JSON string "x" under key
"k". -/
def storeK : String → Option JVal :=
  fun k => if k = "k" then some (JVal.str "x") else none

/-!  Lemmas about the majority-selection loop. -/

theorem majorityFold_inv (counts : String → Nat) (order : List String) :
    ∀ acc : String × Nat,
      (order.foldl (majorityStep counts) acc = acc ∨
        ((order.foldl (majorityStep counts) acc).1 ∈ order ∧
          counts (order.foldl (majorityStep counts) acc).1 =
            (order.foldl (majorityStep counts) acc).2)) ∧
      acc.2 ≤ (order.foldl (majorityStep counts) acc).2 ∧
      ∀ l ∈ order, counts l ≤ (order.foldl (majorityStep counts) acc).2 := by
  induction order with
  | nil => intro acc; simp
  | cons l₀ rest ih =>
    intro acc
    rw [List.foldl_cons]
    obtain ⟨h₁, h₂, h₃⟩ := ih (majorityStep counts acc l₀)
    have hstep₂ : acc.2 ≤ (majorityStep counts acc l₀).2 := by
      unfold majorityStep; split
      · simp; omega
      · exact le_refl _
    have hstepl₀ : counts l₀ ≤ (majorityStep counts acc l₀).2 := by
      unfold majorityStep; split
      · exact le_refl _
      · omega
    refine ⟨?_, le_trans hstep₂ h₂, ?_⟩
    · rcases h₁ with h | ⟨hmem, hcnt⟩
      · rw [h]
        unfold majorityStep
        split
        · right; exact ⟨List.mem_cons_self _ _, rfl⟩
        · left; rfl
      · right; exact ⟨List.mem_cons_of_mem _ hmem, hcnt⟩
    · intro l hl
      rcases List.mem_cons.mp hl with rfl | hl'
      · exact le_trans hstepl₀ h₂
      · exact h₃ l hl'

theorem majorityFold_le (counts : String → Nat) (order : List String) :
    ∀ l ∈ order, counts l ≤ (majorityFold counts order).2 :=
  (majorityFold_inv counts order ("", 0)).2.2

theorem majorityFold_mem (counts : String → Nat) (order : List String)
    (hpos : 0 < (majorityFold counts order).2) :
    (majorityFold counts order).1 ∈ order ∧
      counts (majorityFold counts order).1 = (majorityFold counts order).2 := by
  rcases (majorityFold_inv counts order ("", 0)).1 with h | h
  · unfold majorityFold at hpos
    rw [h] at hpos
    exact absurd hpos (by decide)
  · exact h

theorem labelCount_pos_of_mem {anns : List Annotation } {l : String}
    (hl : l ∈ labelsOf anns) : 0 < labelCount anns l := by
  obtain ⟨a, ha, rfl⟩ := List.mem_map.mp hl
  exact List.countP_pos_iff.mpr ⟨a, ha, by simp⟩

theorem labelCount_eq_zero_of_not_mem {anns : List Annotation } {l : String}
    (hl : l ∉ labelsOf anns) : labelCount anns l = 0 := by
  refine List.countP_eq_zero.mpr ?_
  intro a ha hcontra
  exact hl (by
    have : a.label = l := by simpa using hcontra
    exact this ▸ List.mem_map.mpr ⟨a, ha, rfl⟩)

theorem majorityFold_max_all {anns : List Annotation } {order : List String}
    (ho : IterOrder anns order) :
    ∀ l, labelCount anns l ≤ (majorityFold (labelCount anns) order).2 := by
  intro l
  by_cases hl : l ∈ labelsOf anns
  · exact majorityFold_le _ _ l (ho.2.2 l hl)
  · rw [labelCount_eq_zero_of_not_mem hl]; exact Nat.zero_le _

theorem majorityFold_pos {anns : List Annotation } {order : List String}
    (hne : anns ≠ []) (ho : IterOrder anns order) :
    0 < (majorityFold (labelCount anns) order).2 := by
  obtain ⟨a, anns', rfl⟩ := List.exists_cons_of_ne_nil hne
  have hl : a.label ∈ labelsOf (a :: anns') := List.mem_map.mpr ⟨a, by simp, rfl⟩
  calc 0 < labelCount (a :: anns') a.label := labelCount_pos_of_mem hl
    _ ≤ _ := majorityFold_le _ _ _ (ho.2.2 _ hl)

theorem majorityFold_snd_eq (counts : String → Nat) (order : List String) :
    ∀ acc : String × Nat,
      (order.foldl (majorityStep counts) acc).2 =
        order.foldl (fun m l => max m (counts l)) acc.2 := by
  induction order with
  | nil => intro acc; simp
  | cons l₀ rest ih =>
    intro acc
    rw [List.foldl_cons, List.foldl_cons, ih]
    have h : (majorityStep counts acc l₀).2 = max acc.2 (counts l₀) := by
      unfold majorityStep; split
      · exact (max_eq_right (by omega)).symm
      · exact (max_eq_left (by omega)).symm
    rw [h]

theorem iterOrder_perm {anns : List Annotation } {o₁ o₂ : List String}
    (h₁ : IterOrder anns o₁) (h₂ : IterOrder anns o₂) : o₁.Perm o₂ := by
  refine (List.perm_ext_iff_of_nodup h₁.1 h₂.1).mpr ?_
  intro l
  constructor
  · intro hl; exact h₂.2.2 l (h₁.2.1 l hl)
  · intro hl; exact h₁.2.2 l (h₂.2.1 l hl)

theorem majorityFold_snd_order_indep {anns : List Annotation } {o₁ o₂ : List String}
    (h₁ : IterOrder anns o₁) (h₂ : IterOrder anns o₂) :
    (majorityFold (labelCount anns) o₁).2 = (majorityFold (labelCount anns) o₂).2 := by
  unfold majorityFold
  rw [majorityFold_snd_eq, majorityFold_snd_eq]
  exact (iterOrder_perm h₁ h₂).foldl_eq' (fun x _ y _ z => by
      rw [max_assoc, max_comm (labelCount anns x), ← max_assoc]) 0

theorem majorityFold_eq_of_uniqueMax {counts : String → Nat} {order : List String}
    {l₀ : String} (hmem : l₀ ∈ order) (hpos : 0 < counts l₀)
    (hmax : ∀ l, counts l ≤ counts l₀)
    (huniq : ∀ l ∈ order, counts l = counts l₀ → l = l₀) :
    majorityFold counts order = (l₀, counts l₀) := by
  have hp : 0 < (majorityFold counts order).2 :=
    lt_of_lt_of_le hpos (majorityFold_le counts order l₀ hmem)
  obtain ⟨hm, hc⟩ := majorityFold_mem counts order hp
  have hsnd : (majorityFold counts order).2 = counts l₀ :=
    le_antisymm (hc ▸ hmax _) (majorityFold_le counts order l₀ hmem)
  have hfst : (majorityFold counts order).1 = l₀ := huniq _ hm (hc.trans hsnd)
  exact Prod.ext hfst hsnd

theorem labelCount_annsGGB (l : String) :
    labelCount annsGGB l = if l = "good" then 2 else if l = "bad" then 1 else 0 := by
  by_cases h₁ : l = "good"
  · subst h₁; decide
  · by_cases h₂ : l = "bad"
    · subst h₂; decide
    · simp [labelCount, annsGGB, mkAnn, List.countP_cons, List.countP_nil,
        beq_iff_eq, h₁, h₂, Ne.symm h₁, Ne.symm h₂]

theorem majorityFold_annsGGB {order : List String} (ho : IterOrder annsGGB order) :
    majorityFold (labelCount annsGGB) order = ("good", 2) := by
  have h2 : labelCount annsGGB "good" = 2 := by decide
  have h := @majorityFold_eq_of_uniqueMax (labelCount annsGGB) order "good"
    (ho.2.2 "good" (by decide)) (by decide)
    (fun l => by rw [labelCount_annsGGB l, h2]; split_ifs <;> omega)
    (fun l hl hc => by
      rw [labelCount_annsGGB l, h2] at hc
      split_ifs at hc with hg hb
      · exact hg
      all_goals exact absurd hc (by omega))
  rw [h, h2]

/-- C1 (amended): for every non-empty annotation list and every legal
iteration order of the `labelCounts` map, the returned `majority_label`
is a label of the input whose frequency count is maximal; but the label
chosen among tied maxima is decided by the map's unspecified iteration
order, not by first encounter in the input ordering, so the
first-encounter tie-break of the claim does not hold (see the
counterexample). -/
theorem getAnnotatorAgreement_majority_is_max (threshold : ℚ) (cid atype : String)
    (anns : List Annotation ) (order : List String)
    (hne : anns ≠ []) (ho : IterOrder anns order) :
    (getAnnotatorAgreement threshold cid atype anns order).majorityLabel ∈ labelsOf anns ∧
      ∀ l, labelCount anns l ≤
        labelCount anns (getAnnotatorAgreement threshold cid atype anns order).majorityLabel := by
  have hml : (getAnnotatorAgreement threshold cid atype anns order).majorityLabel =
      (majorityFold (labelCount anns) order).1 := rfl
  have hpos := majorityFold_pos hne ho
  obtain ⟨hm, hc⟩ := majorityFold_mem _ _ hpos
  refine ⟨hml ▸ ho.2.1 _ hm, fun l => ?_⟩
  rw [hml, hc]
  exact majorityFold_max_all ho l

/-- C1 witness: the amended statement applied to the concrete input
"good", "good", "bad" with iteration order ["good", "bad"]. -/
theorem getAnnotatorAgreement_majority_is_max_witness :
    annsGGB ≠ [] ∧ IterOrder annsGGB ["good", "bad"] ∧
      ((getAnnotatorAgreement 0.8 "conv-1" "quality" annsGGB ["good", "bad"]).majorityLabel ∈
          labelsOf annsGGB ∧
        ∀ l, labelCount annsGGB l ≤ labelCount annsGGB
          (getAnnotatorAgreement 0.8 "conv-1" "quality" annsGGB ["good", "bad"]).majorityLabel) :=
  ⟨by decide, by decide,
    getAnnotatorAgreement_majority_is_max 0.8 "conv-1" "quality" annsGGB ["good", "bad"]
      (by decide) (by decide)⟩

/-- C1 counterexample: on the tied input ["good", "bad"] (in this input
order), the iteration order ["bad", "good"] is a legal Go map iteration
order under which the code returns majority label "bad", while the
spec's rule (first-encountered label with the highest count) demands
"good". -/
theorem getAnnotatorAgreement_tiebreak_counterexample :
    IterOrder annsTie ["bad", "good"] ∧
      specMajorityLabel annsTie = "good" ∧
      (getAnnotatorAgreement 0.8 "conv-1" "quality" annsTie ["bad", "good"]).majorityLabel =
        "bad" := by
  refine ⟨by decide, by decide, by decide⟩

/-- C2 (amended): `getRoutingDecision` is a pure function of its inputs
(trivially deterministic in this embedding, which carries no other state),
and `getAnnotatorAgreement` is independent of the map iteration order in
every output field except `majority_label`; the majority labels produced
under two different orders always have the same (maximal) frequency
count, but on ties they may be different labels, so recomputation is not
bit-identical (see the counterexample). -/
theorem agreement_routing_deterministic_up_to_tie (threshold : ℚ)
    (cid atype : String) (anns : List Annotation ) (o₁ o₂ : List String)
    (h₁ : IterOrder anns o₁) (h₂ : IterOrder anns o₂) (cid' : String) (e : Evaluation) :
    getRoutingDecision cid' e = getRoutingDecision cid' e ∧
      ((getAnnotatorAgreement threshold cid atype anns o₁).conversationID =
          (getAnnotatorAgreement threshold cid atype anns o₂).conversationID ∧
        (getAnnotatorAgreement threshold cid atype anns o₁).annotationType =
          (getAnnotatorAgreement threshold cid atype anns o₂).annotationType ∧
        (getAnnotatorAgreement threshold cid atype anns o₁).annotators =
          (getAnnotatorAgreement threshold cid atype anns o₂).annotators ∧
        (getAnnotatorAgreement threshold cid atype anns o₁).agreementScore =
          (getAnnotatorAgreement threshold cid atype anns o₂).agreementScore ∧
        (getAnnotatorAgreement threshold cid atype anns o₁).needsTiebreaker =
          (getAnnotatorAgreement threshold cid atype anns o₂).needsTiebreaker ∧
        (getAnnotatorAgreement threshold cid atype anns o₁).individualAnnotations =
          (getAnnotatorAgreement threshold cid atype anns o₂).individualAnnotations) ∧
      labelCount anns (getAnnotatorAgreement threshold cid atype anns o₁).majorityLabel =
        labelCount anns (getAnnotatorAgreement threshold cid atype anns o₂).majorityLabel := by
  have hsnd := majorityFold_snd_order_indep h₁ h₂
  have hscore : (getAnnotatorAgreement threshold cid atype anns o₁).agreementScore =
      (getAnnotatorAgreement threshold cid atype anns o₂).agreementScore := by
    show (if anns.length > 1 then ((majorityFold (labelCount anns) o₁).2 : ℚ) / _ else 1) =
      (if anns.length > 1 then ((majorityFold (labelCount anns) o₂).2 : ℚ) / _ else 1)
    rw [hsnd]
  refine ⟨rfl, ⟨rfl, rfl, rfl, hscore, ?_, rfl⟩, ?_⟩
  · show decide ((getAnnotatorAgreement threshold cid atype anns o₁).agreementScore < threshold) =
      decide ((getAnnotatorAgreement threshold cid atype anns o₂).agreementScore < threshold)
    rw [hscore]
  · by_cases hpos : 0 < (majorityFold (labelCount anns) o₁).2
    · obtain ⟨_, hc₁⟩ := majorityFold_mem _ _ hpos
      obtain ⟨_, hc₂⟩ := majorityFold_mem _ _ (hsnd ▸ hpos)
      show labelCount anns (majorityFold (labelCount anns) o₁).1 =
        labelCount anns (majorityFold (labelCount anns) o₂).1
      rw [hc₁, hc₂, hsnd]
    · have hz : ∀ l, labelCount anns l = 0 := by
        intro l
        by_cases hl : l ∈ labelsOf anns
        · have := majorityFold_le (labelCount anns) o₁ l (h₁.2.2 l hl)
          omega
        · exact labelCount_eq_zero_of_not_mem hl
      show labelCount anns (majorityFold (labelCount anns) o₁).1 =
        labelCount anns (majorityFold (labelCount anns) o₂).1
      rw [hz, hz]

/-- C2 witness: the amended statement applied at the tied input, two
legal iteration orders, and a concrete evaluation. -/
theorem agreement_routing_deterministic_up_to_tie_witness :
    IterOrder annsTie ["good", "bad"] ∧ IterOrder annsTie ["bad", "good"] ∧
      (getAnnotatorAgreement 0.8 "conv-1" "quality" annsTie ["good", "bad"]).agreementScore =
        (getAnnotatorAgreement 0.8 "conv-1" "quality" annsTie ["bad", "good"]).agreementScore :=
  ⟨by decide, by decide,
    ((agreement_routing_deterministic_up_to_tie 0.8 "conv-1" "quality" annsTie
      ["good", "bad"] ["bad", "good"] (by decide) (by decide) "conv-1"
      ⟨1, []⟩).2.1).2.2.2.1⟩

/-- C2 counterexample: the same fixed input under two legal map
iteration orders yields two different `AnnotatorAgreement` values (the
majority labels differ), so the computation is not bit-identical across
runs. -/
theorem agreement_not_bit_identical_counterexample :
    IterOrder annsTie ["good", "bad"] ∧ IterOrder annsTie ["bad", "good"] ∧
      getAnnotatorAgreement 0.8 "conv-1" "quality" annsTie ["good", "bad"] ≠
        getAnnotatorAgreement 0.8 "conv-1" "quality" annsTie ["bad", "good"] := by
  refine ⟨by decide, by decide, ?_⟩
  intro h
  have := congrArg AnnotatorAgreement.majorityLabel h
  exact absurd this (by decide)

/-- C3: for every input and legal iteration order, the agreement score is
`count(majority_label) / total` when `total > 1` and `1.0` when
`total ≤ 1`, and `needs_tiebreaker` holds exactly when the score is
strictly below the threshold; in particular the labels "good", "good",
"bad" give majority "good", score `2/3`, and `needs_tiebreaker = true`
at threshold `0.8`. -/
theorem agreementScore_spec (threshold : ℚ) (cid atype : String)
    (anns : List Annotation ) (order : List String) (ho : IterOrder anns order) :
    ((1 < anns.length →
        (getAnnotatorAgreement threshold cid atype anns order).agreementScore =
          (labelCount anns
              (getAnnotatorAgreement threshold cid atype anns order).majorityLabel : ℚ) /
            (anns.length : ℚ)) ∧
      (anns.length ≤ 1 →
        (getAnnotatorAgreement threshold cid atype anns order).agreementScore = 1) ∧
      ((getAnnotatorAgreement threshold cid atype anns order).needsTiebreaker = true ↔
        (getAnnotatorAgreement threshold cid atype anns order).agreementScore < threshold)) ∧
    ∀ order', IterOrder annsGGB order' →
      (getAnnotatorAgreement 0.8 cid atype annsGGB order').majorityLabel = "good" ∧
      (getAnnotatorAgreement 0.8 cid atype annsGGB order').agreementScore = 2 / 3 ∧
      (getAnnotatorAgreement 0.8 cid atype annsGGB order').needsTiebreaker = true := by
  constructor
  · refine ⟨?_, ?_, ?_⟩
    · intro hlen
      have hne : anns ≠ [] := by
        intro h; rw [h] at hlen; exact absurd hlen (by decide)
      obtain ⟨_, hc⟩ := majorityFold_mem _ _ (majorityFold_pos hne ho)
      show (if anns.length > 1 then ((majorityFold (labelCount anns) order).2 : ℚ) / _ else 1) =
        (labelCount anns (majorityFold (labelCount anns) order).1 : ℚ) / (anns.length : ℚ)
      rw [if_pos hlen, hc]
    · intro hlen
      show (if anns.length > 1 then ((majorityFold (labelCount anns) order).2 : ℚ) / _ else 1) = 1
      rw [if_neg (by omega)]
    · exact decide_eq_true_iff
  · intro order' ho'
    have hm := majorityFold_annsGGB ho'
    have hml : (getAnnotatorAgreement 0.8 cid atype annsGGB order').majorityLabel =
        (majorityFold (labelCount annsGGB) order').1 := rfl
    have hsc : (getAnnotatorAgreement 0.8 cid atype annsGGB order').agreementScore =
        (if annsGGB.length > 1 then ((majorityFold (labelCount annsGGB) order').2 : ℚ) /
          (annsGGB.length : ℚ) else 1) := rfl
    refine ⟨by rw [hml, hm], ?_, ?_⟩
    · rw [hsc, hm]
      norm_num [annsGGB, mkAnn]
    · show decide ((getAnnotatorAgreement 0.8 cid atype annsGGB order').agreementScore < 0.8) =
        true
      rw [hsc, hm]
      norm_num [annsGGB, mkAnn]

/-- C3 witness: the statement applied at the concrete input
"good", "good", "bad" with iteration order ["good", "bad"]. -/
theorem agreementScore_spec_witness :
    IterOrder annsGGB ["good", "bad"] ∧
      (getAnnotatorAgreement 0.8 "conv-1" "quality" annsGGB ["good", "bad"]).agreementScore =
        2 / 3 ∧
      (getAnnotatorAgreement 0.8 "conv-1" "quality" annsGGB ["good", "bad"]).needsTiebreaker =
        true :=
  ⟨by decide,
    ((agreementScore_spec 0.8 "conv-1" "quality" annsGGB ["good", "bad"] (by decide)).2
      ["good", "bad"] (by decide)).2.1,
    ((agreementScore_spec 0.8 "conv-1" "quality" annsGGB ["good", "bad"] (by decide)).2
      ["good", "bad"] (by decide)).2.2⟩

/-- C6: zero supplied annotations give `majority_label = ""`,
`agreement_score = 1.0`, `needs_tiebreaker = false` (for any agreement
threshold at most 1, which holds of the configured default 0.8). -/
theorem agreement_empty (threshold : ℚ) (cid atype : String) (order : List String)
    (ho : IterOrder [] order) (hthr : threshold ≤ 1) :
    getAnnotatorAgreement threshold cid atype [] order =
      ⟨cid, atype, [], 1, "", false, []⟩ := by
  have horder : order = [] := by
    cases order with
    | nil => rfl
    | cons l rest => exact absurd (ho.2.1 l (by simp)) (by simp [labelsOf])
  subst horder
  have hnl : ¬ (1 : ℚ) < threshold := not_lt.mpr hthr
  simp [getAnnotatorAgreement, majorityFold, hnl]

/-- C6 witness: the statement applied at the empty input and the default
threshold 0.8. -/
theorem agreement_empty_witness :
    IterOrder [] [] ∧ (0.8 : ℚ) ≤ 1 ∧
      getAnnotatorAgreement 0.8 "conv-1" "quality" [] [] =
        ⟨"conv-1", "quality", [], 1, "", false, []⟩ :=
  ⟨by decide, by norm_num,
    agreement_empty 0.8 "conv-1" "quality" [] (by decide) (by norm_num)⟩

/-!  Lemmas about the routing engine. -/

theorem mem_suggestedFold (issues : List IssueDetected) (acc : List String) (x : String) :
    x ∈ issues.foldl suggestedStep acc ↔
      x ∈ acc ∨ (x = "tool_accuracy" ∧ ∃ i ∈ issues, isToolIssue i = true) ∨
        (x = "coherence" ∧ ∃ i ∈ issues, isCoherenceIssue i = true) := by
  induction issues generalizing acc with
  | nil => simp
  | cons i rest ih =>
    rw [List.foldl_cons, ih]
    by_cases ht : isToolIssue i <;> by_cases hc : isCoherenceIssue i <;>
      simp [suggestedStep, ht, hc, List.exists_mem_cons_iff] <;> aesop

/-- C4: an overall score below 0.4 forces human review at high priority
with reason "Low quality score"; a critical issue forces human review at
high priority with reason "Critical issues detected"; both triggers
together still give exactly priority "high"; and `auto_label` is always
the negation of `needs_human_review`. -/
theorem getRoutingDecision_triggers (cid : String) (e : Evaluation) :
    (e.overallScore < 0.4 →
      (getRoutingDecision cid e).needsHumanReview = true ∧
        (getRoutingDecision cid e).priority = "high" ∧
        "Low quality score" ∈ (getRoutingDecision cid e).routingReason) ∧
      ((∃ i ∈ e.issuesDetected, i.severity = "critical") →
        (getRoutingDecision cid e).needsHumanReview = true ∧
          (getRoutingDecision cid e).priority = "high" ∧
          "Critical issues detected" ∈ (getRoutingDecision cid e).routingReason) ∧
      ((e.overallScore < 0.4 ∧ ∃ i ∈ e.issuesDetected, i.severity = "critical") →
        (getRoutingDecision cid e).priority = "high") ∧
      (getRoutingDecision cid e).autoLabel = !(getRoutingDecision cid e).needsHumanReview := by
  have hex : (∃ i ∈ e.issuesDetected, i.severity = "critical") ↔
      0 < e.issuesDetected.countP (fun i => i.severity == "critical") := by
    rw [List.countP_pos_iff]
    simp
  unfold getRoutingDecision
  by_cases hlow : e.overallScore < 0.4 <;>
    by_cases hcrit : 0 < e.issuesDetected.countP (fun i => i.severity == "critical") <;>
      simp [hlow, hcrit, hex]

/-- C4 witness: the statement applied at a concrete evaluation with score
0.3 and one critical issue (both triggers fire). -/
theorem getRoutingDecision_triggers_witness :
    evalCrit.overallScore < 0.4 ∧ (∃ i ∈ evalCrit.issuesDetected, i.severity = "critical") ∧
      (getRoutingDecision "conv-1" evalCrit).needsHumanReview = true ∧
      (getRoutingDecision "conv-1" evalCrit).priority = "high" ∧
      "Low quality score" ∈ (getRoutingDecision "conv-1" evalCrit).routingReason ∧
      "Critical issues detected" ∈ (getRoutingDecision "conv-1" evalCrit).routingReason := by
  have hlow : evalCrit.overallScore < 0.4 := by norm_num [evalCrit]
  have hcrit : ∃ i ∈ evalCrit.issuesDetected, i.severity = "critical" := by
    exact ⟨⟨"tool", "critical", "tool call failed", 1⟩, by simp [evalCrit], rfl⟩
  obtain ⟨h₁, h₂, h₃, _⟩ := getRoutingDecision_triggers "conv-1" evalCrit
  exact ⟨hlow, hcrit, (h₁ hlow).1, h₃ ⟨hlow, hcrit⟩, (h₁ hlow).2.2, (h₂ hcrit).2.2⟩

/-- C5: `suggested_annotation_types` always contains "general_quality";
it contains "tool_accuracy" iff some issue has type "tool" or
"tool_execution_failure", and "coherence" iff some issue has type
"context_loss" or "coherence"; and a 0.9-score evaluation with zero
issues routes to no review, priority "low", exactly
["general_quality"], `auto_label = true`. -/
theorem getRoutingDecision_suggested (cid : String) (e : Evaluation) :
    "general_quality" ∈ (getRoutingDecision cid e).suggestedAnnotationTypes ∧
      ("tool_accuracy" ∈ (getRoutingDecision cid e).suggestedAnnotationTypes ↔
        ∃ i ∈ e.issuesDetected, i.type = "tool" ∨ i.type = "tool_execution_failure") ∧
      ("coherence" ∈ (getRoutingDecision cid e).suggestedAnnotationTypes ↔
        ∃ i ∈ e.issuesDetected, i.type = "context_loss" ∨ i.type = "coherence") ∧
      (e.overallScore = 0.9 → e.issuesDetected = [] →
        getRoutingDecision cid e = ⟨cid, false, "low", [], true, ["general_quality"]⟩) := by
  have hs : (getRoutingDecision cid e).suggestedAnnotationTypes =
      e.issuesDetected.foldl suggestedStep ["general_quality"] := rfl
  refine ⟨?_, ?_, ?_, ?_⟩
  · rw [hs, mem_suggestedFold]
    exact Or.inl (by simp)
  · rw [hs, mem_suggestedFold]
    simp [isToolIssue]
  · rw [hs, mem_suggestedFold]
    simp [isCoherenceIssue]
  · intro h₁ h₂
    obtain ⟨score, issues⟩ := e
    simp only at h₁ h₂
    subst h₁
    subst h₂
    have h04 : ¬ ((0.9 : ℚ) < 0.4) := by norm_num
    simp [getRoutingDecision, h04]

/-- C5 witness: the statement applied at the clean 0.9-score
evaluation, and the tool-accuracy membership direction at a concrete
tool-execution-failure issue. -/
theorem getRoutingDecision_suggested_witness :
    getRoutingDecision "conv-1" evalClean =
        ⟨"conv-1", false, "low", [], true, ["general_quality"]⟩ ∧
      "tool_accuracy" ∈ (getRoutingDecision "conv-1" evalToolIssue).suggestedAnnotationTypes :=
  ⟨(getRoutingDecision_suggested "conv-1" evalClean).2.2.2 rfl rfl,
    ((getRoutingDecision_suggested "conv-1" evalToolIssue).2.1).mpr
      ⟨⟨"tool_execution_failure", "low", "wrong parameters", 2⟩, by simp [evalToolIssue],
        Or.inr rfl⟩⟩

/-!  Lemmas about the task wire format. -/

theorem natDigits_ne_nil (n : Nat) : natDigits n ≠ [] := by
  unfold natDigits
  split
  · simp
  · simp

theorem natDigits_lt_ten (n : Nat) : ∀ d ∈ natDigits n, d < 10 := by
  induction n using Nat.strong_induction_on with
  | _ n ih =>
    unfold natDigits
    split
    next h =>
      intro d hd
      simp at hd
      omega
    next h =>
      intro d hd
      rcases List.mem_append.mp hd with h₁ | h₂
      · exact ih (n / 10) (by omega) d h₁
      · simp at h₂
        omega

theorem ofDigits_append (l : List Nat) (d : Nat) :
    ofDigits (l ++ [d]) = ofDigits l * 10 + d := by
  unfold ofDigits
  rw [List.foldl_append]
  rfl

theorem ofDigits_natDigits (n : Nat) : ofDigits (natDigits n) = n := by
  induction n using Nat.strong_induction_on with
  | _ n ih =>
    unfold natDigits
    split
    next h => simp [ofDigits]
    next h =>
      rw [ofDigits_append, ih (n / 10) (by omega)]
      omega

theorem charDigit_digitChar {d : Nat} (h : d < 10) : charDigit (digitChar d) = d := by
  interval_cases d <;> rfl

theorem isDigitCh_digitChar {d : Nat} (h : d < 10) : isDigitCh (digitChar d) = true := by
  interval_cases d <;> rfl

theorem parseNanos_fmtNanos (n : Nat) : parseNanos (fmtNanos n) = some n := by
  unfold parseNanos fmtNanos
  have hdata : (String.mk ((natDigits n).map digitChar)).data =
      (natDigits n).map digitChar := rfl
  rw [hdata]
  have hne : (natDigits n).map digitChar ≠ [] := by
    simp [natDigits_ne_nil n]
  have hall : ((natDigits n).map digitChar).all isDigitCh = true := by
    rw [List.all_eq_true]
    intro c hc
    obtain ⟨d, hd, rfl⟩ := List.mem_map.mp hc
    exact isDigitCh_digitChar (natDigits_lt_ten n d hd)
  rw [if_pos ⟨hne, hall⟩]
  have hmap : ((natDigits n).map digitChar).map charDigit = natDigits n := by
    rw [List.map_map]
    refine (List.map_congr_left ?_).trans (List.map_id _)
    intro d hd
    simp only [Function.comp_apply, id_eq]
    exact charDigit_digitChar (natDigits_lt_ten n d hd)
  rw [hmap, ofDigits_natDigits]

theorem mapM_loop_asString (ts : List String) :
    ∀ acc : List String,
      List.mapM.loop asString (ts.map JVal.str) acc = some (acc.reverse ++ ts) := by
  induction ts with
  | nil => intro acc; simp [List.mapM.loop]
  | cons s rest ih =>
    intro acc
    simp [List.mapM.loop, asString, ih]

theorem sortedKeys_tail {x : String × JVal} {l : List (String × JVal)}
    (h : strictSortedKeys (x :: l) = true) : strictSortedKeys l = true := by
  cases l with
  | nil => rfl
  | cons y rest =>
    obtain ⟨k₁, v₁⟩ := x
    obtain ⟨k₂, v₂⟩ := y
    unfold strictSortedKeys at h
    simp only [Bool.and_eq_true] at h
    exact h.2

theorem sortedKeys_head_lt {l : List (String × JVal)} :
    ∀ x : String × JVal, strictSortedKeys (x :: l) = true → ∀ y ∈ l, x.1 < y.1 := by
  induction l with
  | nil =>
    intro x _ y hy
    simp at hy
  | cons z rest ih =>
    intro x h y hy
    obtain ⟨k₁, v₁⟩ := x
    obtain ⟨k₂, v₂⟩ := z
    have h₁ : k₁ < k₂ := by
      unfold strictSortedKeys at h
      simp only [Bool.and_eq_true, decide_eq_true_eq] at h
      exact h.1
    have h₂ : strictSortedKeys ((k₂, v₂) :: rest) = true :=
      sortedKeys_tail h
    rcases List.mem_cons.mp hy with rfl | hy'
    · exact h₁
    · exact lt_trans h₁ (ih (k₂, v₂) h₂ y hy')

theorem insertKV_of_lt (k : String) (v : JVal) :
    ∀ m : List (String × JVal), (∀ p ∈ m, p.1 < k) → insertKV k v m = m ++ [(k, v)] := by
  intro m
  induction m with
  | nil => intro _; rfl
  | cons p rest ih =>
    intro h
    obtain ⟨k', v'⟩ := p
    have hk' : k' < k := h (k', v') (by simp)
    unfold insertKV
    rw [if_neg (not_lt.mpr (le_of_lt hk')), if_neg (Ne.symm (ne_of_lt hk')),
      ih (fun p hp => h p (List.mem_cons_of_mem _ hp))]
    rfl

theorem foldl_insertKV_eq_append :
    ∀ (rest acc : List (String × JVal)),
      (∀ p ∈ acc, ∀ q ∈ rest, p.1 < q.1) → strictSortedKeys rest = true →
      rest.foldl (fun m kv => insertKV kv.1 kv.2 m) acc = acc ++ rest := by
  intro rest
  induction rest with
  | nil => intro acc _ _; simp
  | cons q rest ih =>
    intro acc hcross hsorted
    obtain ⟨k, v⟩ := q
    rw [List.foldl_cons]
    have h₁ : insertKV k v acc = acc ++ [(k, v)] :=
      insertKV_of_lt k v acc (fun p hp => hcross p hp (k, v) (by simp))
    have h₂ : rest.foldl (fun m kv => insertKV kv.1 kv.2 m) (acc ++ [(k, v)]) =
        (acc ++ [(k, v)]) ++ rest := by
      refine ih (acc ++ [(k, v)]) ?_ (sortedKeys_tail hsorted)
      intro p hp q' hq'
      rcases List.mem_append.mp hp with hp' | hp'
      · exact hcross p hp' q' (List.mem_cons_of_mem _ hq')
      · have hpk : p = (k, v) := by simpa using hp'
        subst hpk
        exact sortedKeys_head_lt (k, v) hsorted q' hq'
    show rest.foldl (fun m kv => insertKV kv.1 kv.2 m) (insertKV k v acc) =
      acc ++ (k, v) :: rest
    rw [h₁, h₂]
    simp

theorem canonFields_sorted_id {fs : List (String × JVal)}
    (h : strictSortedKeys fs = true) : canonFields fs = fs := by
  unfold canonFields
  have := foldl_insertKV_eq_append fs [] (by simp) h
  simpa using this

mutual

theorem canonV_id : ∀ v : JVal, isCanon v = true → canonV v = v
  | .null, _ => rfl
  | .bool _, _ => rfl
  | .num _, _ => rfl
  | .str _, _ => rfl
  | .arr xs, h => by
    rw [canonV]
    exact congrArg JVal.arr (canonVList_id xs (by rw [isCanon] at h; exact h))
  | .obj fs, h => by
    rw [canonV]
    rw [isCanon, Bool.and_eq_true] at h
    rw [canonVFields_id fs h.2, canonFields_sorted_id h.1]

theorem canonVList_id : ∀ xs : List JVal, isCanonList xs = true → canonVList xs = xs
  | [], _ => rfl
  | x :: xs, h => by
    rw [canonVList]
    rw [isCanonList, Bool.and_eq_true] at h
    rw [canonV_id x h.1, canonVList_id xs h.2]

theorem canonVFields_id :
    ∀ fs : List (String × JVal), isCanonFields fs = true → canonVFields fs = fs
  | [], _ => rfl
  | (k, v) :: fs, h => by
    rw [canonVFields]
    rw [isCanonFields, Bool.and_eq_true] at h
    rw [canonV_id v h.1, canonVFields_id fs h.2]

end

theorem roundTripTask {t : Task } (h : GoodTask t) : unmarshalTask (marshalTask t) = some t := by
  obtain ⟨id, ty, cid, evTypes, payload, createdAt⟩ := t
  obtain ⟨hev, hpl, hcanon⟩ := h
  cases evTypes with
  | none =>
    cases payload with
    | none =>
      simp [marshalTask, unmarshalTask, decodeStrField, List.lookup, asString,
        parseNanos_fmtNanos]
    | some ps =>
      have hps : ps ≠ [] := fun hnil => hpl (by rw [hnil])
      have hempty : ps.isEmpty = false := by
        cases ps with
        | nil => exact absurd rfl hps
        | cons p ps' => rfl
      obtain ⟨hsorted, hcf⟩ := hcanon ps rfl
      simp [marshalTask, unmarshalTask, decodeStrField, List.lookup, hempty, asString,
        asPayloadMap, parseNanos_fmtNanos, canonVFields_id ps hcf,
        canonFields_sorted_id hsorted]
  | some ts =>
    have hts : ts ≠ [] := fun hnil => hev (by rw [hnil])
    have htsEmpty : ts.isEmpty = false := by
      cases ts with
      | nil => exact absurd rfl hts
      | cons s ts' => rfl
    cases payload with
    | none =>
      simp [marshalTask, unmarshalTask, decodeStrField, List.lookup, htsEmpty, asString,
        asStringSlice, mapM_loop_asString, parseNanos_fmtNanos]
    | some ps =>
      have hps : ps ≠ [] := fun hnil => hpl (by rw [hnil])
      have hempty : ps.isEmpty = false := by
        cases ps with
        | nil => exact absurd rfl hps
        | cons p ps' => rfl
      obtain ⟨hsorted, hcf⟩ := hcanon ps rfl
      simp [marshalTask, unmarshalTask, decodeStrField, List.lookup, htsEmpty, hempty,
        asString, asStringSlice, mapM_loop_asString, asPayloadMap, parseNanos_fmtNanos,
        canonVFields_id ps hcf, canonFields_sorted_id hsorted]

/-- C7: an enqueue failure makes an explicit evaluation-trigger request
fail (HTTP 500), but never fails ingestion: for every ingestion input,
auto-evaluate setting and enqueue outcome, conversation creation still
returns 201 with the created conversation. -/
theorem enqueue_failure_isolation (created conv : Conversation) (cid tid : String)
    (now : Nat) (q : List JVal) (evTypes : List String) (autoEvaluate enqueueOk : Bool) :
    (createConversation (.ok created) autoEvaluate cid tid now enqueueOk q).1 = 201 ∧
      (createConversation (.ok created) autoEvaluate cid tid now enqueueOk q).2.1 =
        some created ∧
      triggerEvaluation (.ok (some conv)) cid evTypes tid now false q = (500, q) := by
  cases autoEvaluate <;> cases enqueueOk <;> exact ⟨rfl, rfl, rfl⟩

/-- C10: an evaluation-trigger request whose conversation is absent from
the repository returns 404 and leaves the "evaluations" queue unchanged
— no task is enqueued on this error path. -/
theorem triggerEvaluation_notFound (cid : String) (evTypes : List String) (tid : String)
    (now : Nat) (enqueueOk : Bool) (q : List JVal) :
    triggerEvaluation (.ok none) cid evTypes tid now enqueueOk q = (404, q) := rfl

/-- C8 (amended): enqueue-then-dequeue on an otherwise-untouched (empty)
queue returns the task deep-equal to the input, provided its
`EvaluatorTypes` and `Payload` are not empty-but-non-nil and the payload
is the canonical listing of a Go map; an empty non-nil slice does not
round-trip, because `omitempty` drops it and decoding turns it into the
`nil` slice (see the counterexample). -/
theorem enqueue_dequeue_roundtrip (t : Task ) (h : GoodTask t) :
    dequeue (enqueue [] t) = (.ok (some t), []) := by
  show dequeue [marshalTask t] = _
  simp [dequeue, roundTripTask h]

/-- C8 witness: the amended statement applied at a concrete task with
the default evaluator types and no payload. -/
theorem enqueue_dequeue_roundtrip_witness :
    GoodTask taskGood ∧ dequeue (enqueue [] taskGood) = (.ok (some taskGood), []) :=
  ⟨⟨by decide, fun hp => Option.noConfusion hp, fun _ hp => Option.noConfusion hp⟩,
    enqueue_dequeue_roundtrip taskGood
      ⟨by decide, fun hp => Option.noConfusion hp, fun _ hp => Option.noConfusion hp⟩⟩

/-- C8 counterexample: a task whose `EvaluatorTypes` is the empty
non-nil slice is dequeued with a `nil` `EvaluatorTypes` — the dequeued
task is not deep-equal to the enqueued one. -/
theorem enqueue_dequeue_roundtrip_counterexample :
    taskEmptySlice.evaluatorTypes = some [] ∧
      (dequeue (enqueue [] taskEmptySlice)).1 = .ok (some taskEmptySliceRT) ∧
      taskEmptySliceRT.evaluatorTypes = none ∧
      (dequeue (enqueue [] taskEmptySlice)).1 ≠ .ok (some taskEmptySlice) := by
  have h₁ : (dequeue (enqueue [] taskEmptySlice)).1 = .ok (some taskEmptySliceRT) := by
    simp [dequeue, enqueue, marshalTask, unmarshalTask, taskEmptySlice, taskEmptySliceRT,
      decodeStrField, List.lookup, asString, parseNanos_fmtNanos]
  refine ⟨rfl, h₁, rfl, ?_⟩
  rw [h₁]
  intro heq
  simp only [Except.ok.injEq, Option.some.injEq] at heq
  have hev := congrArg Task.evaluatorTypes heq
  simp [taskEmptySliceRT, taskEmptySlice] at hev

/-- C9 (amended): `Get` on a missing key returns without error and
leaves `dest` unchanged; absence is a normal, non-error outcome, but it
is not reported distinctly — the outcome is identical to a successful
read of a stored value equal to `dest` (see the counterexample). -/
theorem redisGet_missing (store : String → Option JVal) (key : String) (dest : JVal)
    (h : store key = none) : redisGet store key dest = .ok dest := by
  unfold redisGet
  rw [h]

/-- C9 witness: the amended statement applied at the empty store. -/
theorem redisGet_missing_witness :
    (fun _ : String => (none : Option JVal)) "k" = none ∧
      redisGet (fun _ => none) "k" (JVal.str "x") = .ok (JVal.str "x") :=
  ⟨rfl, redisGet_missing (fun _ => none) "k" (JVal.str "x") rfl⟩

/-- C9 counterexample: `Get` on a missing key returns exactly the same
value as `Get` on a key present with contents equal to `dest`, so the
caller cannot distinguish absence — there is no distinct "not found"
result. -/
theorem redisGet_indistinguishable_counterexample :
    (fun _ : String => (none : Option JVal)) "k" = none ∧
      storeK "k" = some (JVal.str "x") ∧
      redisGet (fun _ => none) "k" (JVal.str "x") = .ok (JVal.str "x") ∧
      redisGet storeK "k" (JVal.str "x") = .ok (JVal.str "x") := by
  refine ⟨rfl, by simp [storeK], rfl, ?_⟩
  simp [redisGet, storeK, canonV]

end AgentEval
